import Mathlib

/-!
Shallow embedding of the `eventive` event-sourcing engine
(packages/eventive/src/eventive.ts and its util-types), together with the
MongoDB-direct variant of the engine that carries snapshot support
(the `useSnapshot` variant of `eventive.ts`).

Modelling conventions:
* Timestamps (`eventCreatedAt`, ISO-8601 strings in the source, compared by
  the total lexicographic order) are modelled by an arbitrary linearly
  ordered type `τ`.
* Event bodies are an opaque type `β`; reducer states an opaque type `σ`.
* The TypeScript seed value `\x7b\x7d as State` (an opaque zero value cast to
  `State`) is modelled by an explicit `emptyState` field.
* The storage adapter is abstract in the source (an interface); reading
  operations take the adapter's answer as a function or list argument.
* `lodash.sortBy` is a stable sort by a key; it is modelled by
  `List.insertionSort` over the key order, which is likewise stable.
* The flattened entity type `Entity<State> = State & \x7b entityId; entityName;
  createdAt; updatedAt \x7d` is modelled by a structure carrying the `State`
  component in an explicit `state` field; a use of the entity at type
  `State` in the source is the projection `.state` here.
-/

namespace Eventive

/-- `BaseDomainEvent` of util-types (revision-free current shape):
eventId, eventName, eventCreatedAt, entityName, entityId, body. -/
structure Event (τ β : Type) where
  eventId : String
  eventName : String
  eventCreatedAt : τ
  entityName : String
  entityId : String
  body : β
deriving Repr, DecidableEq

/-- `Entity<State>` of util-types: the aggregate projection with its
metadata fields; the reducer-state component is the `state` field. -/
structure Entity (τ σ : Type) where
  entityId : String
  entityName : String
  createdAt : τ
  updatedAt : τ
  state : σ
deriving Repr, DecidableEq

/-- `toEntity` of util-types: builds the entity from the folded state, the
`createdAt` argument and the metadata of `lastEvent`
(`updatedAt := lastEvent.eventCreatedAt`). -/
def toEntity (state : σ) (createdAt : τ) (lastEvent : Event τ β) : Entity τ σ :=
  { entityId := lastEvent.entityId
    entityName := lastEvent.entityName
    createdAt := createdAt
    updatedAt := lastEvent.eventCreatedAt
    state := state }

/-- `defaultMapper` of eventive.ts: the identity mapper used when no mapper
is configured. -/
def defaultMapper (t : Event τ β) : Event τ β := t

/-- The configuration taken by `eventive(\x7b ... \x7d)`: entity name, reducer,
optional mapper (defaulting to `defaultMapper`), and the opaque zero-value
seed state (`\x7b\x7d as State` in the source). -/
structure EventiveEnv (τ β σ : Type) where
  entityName : String
  reducer : σ → Event τ β → σ
  mapper : Event τ β → Event τ β := defaultMapper
  emptyState : σ

/-- The key order used by `sortBy(events, (e) => e.eventCreatedAt)`. -/
def createdLE [LinearOrder τ] (a b : Event τ β) : Prop :=
  a.eventCreatedAt ≤ b.eventCreatedAt

instance [LinearOrder τ] : DecidableRel (createdLE (τ := τ) (β := β)) :=
  fun a b => inferInstanceAs (Decidable (a.eventCreatedAt ≤ b.eventCreatedAt))

instance [LinearOrder τ] : IsTotal (Event τ β) (createdLE (τ := τ) (β := β)) :=
  ⟨fun a b => le_total a.eventCreatedAt b.eventCreatedAt⟩

instance [LinearOrder τ] : IsTrans (Event τ β) (createdLE (τ := τ) (β := β)) :=
  ⟨fun _ _ _ hab hbc => le_trans hab hbc⟩

/-- `sortBy(events, (e) => e.eventCreatedAt)`: stable ascending sort by
event timestamp. -/
def sortByCreated [LinearOrder τ] (events : List (Event τ β)) : List (Event τ β) :=
  events.insertionSort createdLE

/-- `findOneByEntityId` of eventive.ts: fetch the aggregate's events from the
storage adapter, return `null` on an empty stream; otherwise fold the
reducer over the mapper-mapped events sorted ascending by `eventCreatedAt`,
while `createdAt`/`updatedAt` come from `events[0]` and `last(events)` of the
adapter-returned (unsorted) list. -/
def findOneByEntityId [LinearOrder τ] (env : EventiveEnv τ β σ)
    (findEvents : String → String → List (Event τ β)) (entityId : String) :
    Option (Entity τ σ) :=
  match findEvents env.entityName entityId with
  | [] => none
  | first :: rest =>
      some (toEntity
        (((sortByCreated (first :: rest)).map env.mapper).foldl env.reducer env.emptyState)
        first.eventCreatedAt
        ((first :: rest).getLast (by simp)))

/-- The per-group step of `findByEntityIds`: given one aggregate's events in
ascending order (`eventMap[entityId]` after the sort), `null` when the group
is absent, otherwise map, fold, and take `e[0]` / `last(e)` of the group. -/
def foldGroup (env : EventiveEnv τ β σ) : List (Event τ β) → Option (Entity τ σ)
  | [] => none
  | first :: rest =>
      some (toEntity
        (((first :: rest).map env.mapper).foldl env.reducer env.emptyState)
        first.eventCreatedAt
        ((first :: rest).getLast (by simp)))

/-- `findByEntityIds` of eventive.ts: batch-fetch all events of the requested
ids, sort ascending by `eventCreatedAt`, group by `entityId`
(`eventMap[entityId]` is the in-order sublist of sorted events with that id),
then walk the input ids in order, skipping ids without events (`compact`). -/
def findByEntityIds [LinearOrder τ] (env : EventiveEnv τ β σ)
    (findEventsByEntityIds : String → List String → List (Event τ β))
    (entityIds : List String) : List (Entity τ σ) :=
  let events := findEventsByEntityIds env.entityName entityIds
  let sorted := sortByCreated events
  entityIds.filterMap fun entityId =>
    foldGroup env (sorted.filter (fun ev => ev.entityId == entityId))

/-- The result triple of `create` / `dispatch`: the synthesized event and the
candidate entity (the deferred `commit` closure is `commitEvent` applied to
exactly these two values). -/
structure CommandResult (τ β σ : Type) where
  event : Event τ β
  entity : Entity τ σ
deriving Repr, DecidableEq

/-- `create` of eventive.ts: synthesize the event with a fresh `eventId`
(`createId()`, modelled by the `freshEventId` argument), `entityId` equal to
the caller-supplied one when present and a fresh id otherwise, and
`eventCreatedAt = now`; fold the reducer once against the zero-value seed.
`create` takes no storage argument because the source performs no storage
operation: persistence happens only inside the returned `commit` closure. -/
def create (env : EventiveEnv τ β σ) (eventName : String) (eventBody : β)
    (entityId : Option String) (freshEventId freshEntityId : String) (now : τ) :
    CommandResult τ β σ :=
  let event : Event τ β :=
    { eventId := freshEventId
      eventName := eventName
      eventCreatedAt := now
      entityName := env.entityName
      entityId := entityId.getD freshEntityId
      body := eventBody }
  let state := env.reducer env.emptyState (env.mapper event)
  { event := event
    entity := toEntity state event.eventCreatedAt event }

/-- `dispatch` of eventive.ts: synthesize the event against
`prevEntity.entityId` with `eventCreatedAt = now`, fold the reducer over the
prior entity's state component and the mapped event, and keep
`prevEntity.createdAt`. Like `create`, it performs no storage operation. -/
def dispatch (env : EventiveEnv τ β σ) (prevEntity : Entity τ σ)
    (eventName : String) (eventBody : β) (freshEventId : String) (now : τ) :
    CommandResult τ β σ :=
  let event : Event τ β :=
    { eventId := freshEventId
      eventName := eventName
      eventCreatedAt := now
      entityName := env.entityName
      entityId := prevEntity.entityId
      body := eventBody }
  let state := env.reducer prevEntity.state (env.mapper event)
  { event := event
    entity := toEntity state prevEntity.createdAt event }

/-- Observable effects of the commit pipeline: the append-only event log and
the snapshot documents of the MongoDB storage adapter
(`eventiveStorageMongo.commit`: `insertOne` then keyed upsert), plus traces
recording each plugin-hook invocation as (plugin index, mapped event passed). -/
structure CommitState (τ β σ : Type) where
  log : List (Event τ β)
  snapshots : List (String × Entity τ σ)
  beforeTrace : List (Nat × Event τ β)
  onTrace : List (Nat × Event τ β)
deriving Repr, DecidableEq

/-- The snapshot `updateOne(\x7b entityId \x7d, \x7b $set: entity \x7d, \x7b upsert: true \x7d)` of
`eventiveStorageMongo.commit`, keyed by `entityId`. -/
def upsertSnapshot (snapshots : List (String × Entity τ σ)) (entity : Entity τ σ) :
    List (String × Entity τ σ) :=
  if snapshots.any (fun p => p.fst == entity.entityId) then
    snapshots.map (fun p => if p.fst == entity.entityId then (p.fst, entity) else p)
  else
    snapshots ++ [(entity.entityId, entity)]

/-- One pass over the plugin list by a hook loop
(`for (const plugin of plugins) await plugin.hook?.(\x7b event: mapper(event), ... \x7d)`):
each of the `pluginCount` plugins is invoked once, in registration order,
with the mapped event. -/
def hookCalls (env : EventiveEnv τ β σ) (pluginCount : Nat) (event : Event τ β) :
    List (Nat × Event τ β) :=
  (List.range pluginCount).map (fun i => (i, env.mapper event))

/-- `commitEvent` of eventive.ts (current, abort-free source): run every
`beforeCommit` hook with the mapped event, then `storage.commit` (append the
event to the log and upsert the snapshot), then every `onCommitted` hook.
There is no guard, no idempotence check and no abort path. -/
def commitEvent (env : EventiveEnv τ β σ) (pluginCount : Nat)
    (event : Event τ β) (entity : Entity τ σ) (st : CommitState τ β σ) :
    CommitState τ β σ :=
  { log := st.log ++ [event]
    snapshots := upsertSnapshot st.snapshots entity
    beforeTrace := st.beforeTrace ++ hookCalls env pluginCount event
    onTrace := st.onTrace ++ hookCalls env pluginCount event }

/-- The adapter answer to `storage.findEvents(\x7b entityName, filter: \x7b entityId \x7d \x7b)`
over an explicit log: the events matching both keys, in log order. -/
def eventsFor (log : List (Event τ β)) (entityName entityId : String) :
    List (Event τ β) :=
  log.filter (fun e => e.entityName == entityName && e.entityId == entityId)

/-- Modelled from the spec: the abort-capable `beforeCommit` loop. The
implementation file that passes an `abortCommit` callback to `beforeCommit`
hooks is not among the sources (only its test, which registers a plugin
receiving `abortCommit`, is). Per the spec, hooks run in registration order
and the loop stops at the first hook that signals abort. `aborts` lists each
registered hook's abort decision for this call; the result pairs the state
whose `beforeTrace` records exactly the hooks that ran with the abort flag. -/
def runBeforeHooks (env : EventiveEnv τ β σ) (event : Event τ β) :
    List Bool → Nat → CommitState τ β σ → CommitState τ β σ × Bool
  | [], _, st => (st, false)
  | b :: rest, i, st =>
      let st' := { st with beforeTrace := st.beforeTrace ++ [(i, env.mapper event)] }
      if b then (st', true) else runBeforeHooks env event rest (i + 1) st'

/-- Modelled from the spec: the abort-capable commit pipeline (spec section
4.5). Run each `beforeCommit` hook in order; if any signals abort, skip
persistence (event append and snapshot upsert) and all subsequent hooks and
return normally (the function is total: no error value exists). Otherwise
append the event, upsert the snapshot when snapshotting is enabled, and run
every `onCommitted` hook. -/
def commitEventWithAbort (env : EventiveEnv τ β σ) (aborts : List Bool)
    (useSnapshot : Bool) (event : Event τ β) (entity : Entity τ σ)
    (st : CommitState τ β σ) : CommitState τ β σ :=
  let run := runBeforeHooks env event aborts 0 st
  if run.2 then run.1
  else
    { log := run.1.log ++ [event]
      snapshots := if useSnapshot then upsertSnapshot run.1.snapshots entity
        else run.1.snapshots
      beforeTrace := run.1.beforeTrace
      onTrace := run.1.onTrace ++ hookCalls env aborts.length event }

/-- How many `beforeCommit` hooks actually run for the abort decisions
`aborts`: everything up to and including the first aborting hook, or all of
them when none aborts. -/
def runCount (aborts : List Bool) : Nat :=
  if true ∈ aborts then (aborts.takeWhile (fun b => !b)).length + 1
  else aborts.length

end Eventive

namespace EventiveP4

open Eventive

/-- `bypass` of the `useSnapshot` variant of eventive.ts: identity, used in
place of an absent mapper (`options.mapper ?? bypass`). -/
def bypass (t : Event τ β) : Event τ β := t

/-- The options of the `useSnapshot` variant of `eventive(...)`: entity name,
reducer, optional mapper, the `useSnapshot` flag, and the opaque zero-value
seed state. -/
structure Options (τ β σ : Type) where
  entityName : String
  reducer : σ → Event τ β → σ
  mapper : Option (Event τ β → Event τ β)
  useSnapshot : Bool
  emptyState : σ

/-- JavaScript `Object.entries(groupBy(...))` key order: insertion order of
string keys, i.e. order of first occurrence. -/
def firstOccurKeys : List (Event τ β) → List String
  | [] => []
  | e :: rest => e.entityId :: (firstOccurKeys rest).filter (fun k => k != e.entityId)

/-- The per-group entity of the `useSnapshot` variant's `batchGet`: map each
event through `options.mapper ?? bypass`, fold the reducer from the seed, and
take `e[0]` / `last(e)` of the (already sorted) group. -/
def groupEntity (o : Options τ β σ) : List (Event τ β) → Option (Entity τ σ)
  | [] => none
  | first :: rest =>
      some (toEntity
        (((first :: rest).map (o.mapper.getD bypass)).foldl o.reducer o.emptyState)
        first.eventCreatedAt
        ((first :: rest).getLast (by simp)))

/-- `batchGet` of the `useSnapshot` variant: `queryEvents` with an `$in`
filter on the requested ids (and the engine's `entityName`) over the full
events collection, sort ascending by `eventCreatedAt`, group by `entityId`,
and build one entity per group in `Object.entries` key order. -/
def batchGet [LinearOrder τ] (o : Options τ β σ) (allEvents : List (Event τ β))
    (entityIds : List String) : List (Entity τ σ) :=
  let events := allEvents.filter
    (fun e => e.entityName == o.entityName && entityIds.contains e.entityId)
  let sorted := sortByCreated events
  (firstOccurKeys sorted).filterMap fun k =>
    groupEntity o (sorted.filter (fun ev => ev.entityId == k))

/-- `querySnapshots` of the `useSnapshot` variant (the snapshot-query path):
take the snapshot documents matching the caller's filter (the
`snapshotDocs` argument models `snapshotsCollection.find(filter)`), and
resolve their `entityId`s through `batchGet`. Faithful to the source, the
body performs no check of `o.useSnapshot` whatsoever. -/
def querySnapshots [LinearOrder τ] (o : Options τ β σ)
    (snapshotDocs : List (Entity τ σ)) (allEvents : List (Event τ β)) :
    List (Entity τ σ) :=
  batchGet o allEvents (snapshotDocs.map (fun s => s.entityId))

end EventiveP4

namespace EventiveTest

open Eventive

/-- A concrete domain event over `Nat` timestamps and `Nat` bodies, for
evaluating the engine at explicit inputs. -/
def mkEvent (eventId : String) (t : Nat) (entityId : String) (body : Nat) :
    Event Nat Nat :=
  { eventId := eventId
    eventName := "n"
    eventCreatedAt := t
    entityName := "E"
    entityId := entityId
    body := body }

/-- A concrete engine configuration whose reducer is order-sensitive and
whose mapper visibly changes the event body. -/
def envW : EventiveEnv Nat Nat Nat :=
  { entityName := "E"
    reducer := fun s e => s * 100 + e.body
    mapper := fun e => { e with body := e.body + 1 }
    emptyState := 0 }

/-- A storage adapter whose `findEvents` answers the aggregate's two events
in descending `eventCreatedAt` order. -/
def findDesc : String → String → List (Event Nat Nat) :=
  fun _ _ => [mkEvent "e2" 2 "a" 20, mkEvent "e1" 1 "a" 10]

/-- A storage adapter whose `findEvents` answers the same two events in
ascending `eventCreatedAt` order. -/
def findAsc : String → String → List (Event Nat Nat) :=
  fun _ _ => [mkEvent "e1" 1 "a" 10, mkEvent "e2" 2 "a" 20]

/-- An empty commit-pipeline state. -/
def stEmpty : CommitState Nat Nat Nat :=
  { log := [], snapshots := [], beforeTrace := [], onTrace := [] }

/-- A concrete candidate entity for exercising the commit pipeline. -/
def entW : Entity Nat Nat :=
  { entityId := "a", entityName := "E", createdAt := 1, updatedAt := 1, state := 10 }

/-- Options of the `useSnapshot` engine variant with snapshotting disabled. -/
def oP4 : EventiveP4.Options Nat Nat Nat :=
  { entityName := "E"
    reducer := fun s e => s + e.body
    mapper := none
    useSnapshot := false
    emptyState := 0 }

/-- A snapshot document present in the snapshot collection. -/
def snapA : Entity Nat Nat :=
  { entityId := "a", entityName := "E", createdAt := 0, updatedAt := 0, state := 0 }

end EventiveTest

namespace Eventive

section SortLemmas

variable {α : Type} (r : α → α → Prop) [DecidableRel r]

theorem orderedInsert_eq_cons_of_forall (a : α) (l : List α) (h : ∀ c ∈ l, r a c) :
    l.orderedInsert r a = a :: l := by
  cases l with
  | nil => rfl
  | cons b m => exact List.orderedInsert_of_le r m (h b (by simp))

theorem filter_orderedInsert [IsTrans α r] (p : α → Bool) (a : α) :
    ∀ l : List α, l.Sorted r →
      (l.orderedInsert r a).filter p =
        if p a then (l.filter p).orderedInsert r a else l.filter p := by
  intro l
  induction l with
  | nil =>
      intro _
      cases hpa : p a <;> simp [List.orderedInsert, List.filter_cons, hpa]
  | cons b m ih =>
      intro hsort
      have ihm := ih hsort.of_cons
      by_cases hab : r a b
      · rw [List.orderedInsert_of_le r m hab]
        have hall : ∀ c ∈ (b :: m).filter p, r a c := by
          intro c hc
          have hcm : c ∈ b :: m := List.mem_of_mem_filter hc
          rcases List.mem_cons.mp hcm with hcb | hcm2
          · exact hcb ▸ hab
          · exact Trans.trans hab (List.rel_of_sorted_cons hsort c hcm2)
        cases hpa : p a
        · simp [List.filter_cons, hpa]
        · rw [orderedInsert_eq_cons_of_forall r a _ hall]
          simp [List.filter_cons, hpa]
      · have hstep : (b :: m).orderedInsert r a = b :: m.orderedInsert r a := by
          simp [List.orderedInsert, hab]
        rw [hstep]
        have hins : ∀ l₂ : List α, (b :: l₂).orderedInsert r a = b :: l₂.orderedInsert r a := by
          intro l₂
          simp [List.orderedInsert, hab]
        cases hpb : p b <;> cases hpa : p a <;>
          simp [List.filter_cons, hpb, hpa, ihm, hins]

theorem filter_insertionSort [IsTotal α r] [IsTrans α r] (p : α → Bool) :
    ∀ l : List α, (l.insertionSort r).filter p = (l.filter p).insertionSort r := by
  intro l
  induction l with
  | nil => rfl
  | cons x m ih =>
      rw [List.insertionSort,
        filter_orderedInsert r p x _ (List.sorted_insertionSort r _), ih]
      cases hpx : p x
      · simp [List.filter, hpx]
      · simp [List.filter, hpx, List.insertionSort]

end SortLemmas

theorem sortByCreated_perm [LinearOrder τ] (l : List (Event τ β)) :
    (sortByCreated l).Perm l :=
  List.perm_insertionSort _ l

theorem sortByCreated_sorted [LinearOrder τ] (l : List (Event τ β)) :
    (sortByCreated l).Sorted createdLE :=
  List.sorted_insertionSort _ l

theorem sortByCreated_filter [LinearOrder τ] (p : Event τ β → Bool)
    (l : List (Event τ β)) :
    (sortByCreated l).filter p = sortByCreated (l.filter p) :=
  filter_insertionSort _ p l

theorem filterMap_guard_eq_filter (q : String → Bool) :
    ∀ ids : List String,
      (ids.filterMap (fun i => if q i then some i else none)) = ids.filter q := by
  intro ids
  induction ids with
  | nil => rfl
  | cons i rest ih =>
      cases hqi : q i <;> simp [List.filterMap_cons, List.filter, hqi, ih]

/-- C7: `findOneByEntityId` returns `null` exactly when the store holds zero
events for the requested id, and a non-null entity whenever at least one
event exists. Absence is never an error: the embedded function is total with
no error outcome, mirroring the source, which has no throw path. -/
theorem claim7_findOne_none_iff_no_events [LinearOrder τ]
    (env : EventiveEnv τ β σ)
    (findEvents : String → String → List (Event τ β)) (entityId : String) :
    findOneByEntityId env findEvents entityId = none ↔
      findEvents env.entityName entityId = [] := by
  unfold findOneByEntityId
  split <;> simp_all

/-- C5: `dispatch` synthesizes the event against `priorEntity.entityId` with
`eventCreatedAt = now`; the returned entity's state is
`reducer(priorEntity.state, mapper(event))`, its `createdAt` is the prior
entity's unchanged, and its `updatedAt` is the new event's `eventCreatedAt`.
`dispatch` itself takes no store: the log grows only when the returned
commit (i.e. `commitEvent` on exactly this event/entity pair) is invoked,
as the final conjunct states. -/
theorem claim5_dispatch_spec (env : EventiveEnv τ β σ) (prev : Entity τ σ)
    (eventName : String) (body : β) (eid : String) (now : τ) :
    (dispatch env prev eventName body eid now).event.entityId = prev.entityId ∧
    (dispatch env prev eventName body eid now).event.eventCreatedAt = now ∧
    (dispatch env prev eventName body eid now).entity.state =
      env.reducer prev.state
        (env.mapper (dispatch env prev eventName body eid now).event) ∧
    (dispatch env prev eventName body eid now).entity.createdAt =
      prev.createdAt ∧
    (dispatch env prev eventName body eid now).entity.updatedAt =
      (dispatch env prev eventName body eid now).event.eventCreatedAt ∧
    (∀ (n : Nat) (st : CommitState τ β σ),
      (commitEvent env n (dispatch env prev eventName body eid now).event
          (dispatch env prev eventName body eid now).entity st).log =
        st.log ++ [(dispatch env prev eventName body eid now).event]) :=
  ⟨rfl, rfl, rfl, rfl, rfl, fun _ _ => rfl⟩

/-- C6: `create` synthesizes the event with the fresh event id (`createId()`
is modelled by the `eid` argument), an `entityId` equal to the caller's when
supplied and a fresh id otherwise, and `eventCreatedAt = now`; the returned
entity's state is `reducer(emptyState, mapper(event))` and its `createdAt`
and `updatedAt` both equal the event's `eventCreatedAt`. `create` takes no
store: the log grows only when the returned commit is invoked. -/
theorem claim6_create_spec (env : EventiveEnv τ β σ) (eventName : String)
    (body : β) (entityId : Option String) (eid fid : String) (now : τ) :
    (create env eventName body entityId eid fid now).event.eventId = eid ∧
    (create env eventName body entityId eid fid now).event.entityId =
      entityId.getD fid ∧
    (create env eventName body entityId eid fid now).event.eventCreatedAt = now ∧
    (create env eventName body entityId eid fid now).entity.state =
      env.reducer env.emptyState
        (env.mapper (create env eventName body entityId eid fid now).event) ∧
    (create env eventName body entityId eid fid now).entity.createdAt = now ∧
    (create env eventName body entityId eid fid now).entity.updatedAt = now ∧
    (∀ (n : Nat) (st : CommitState τ β σ),
      (commitEvent env n (create env eventName body entityId eid fid now).event
          (create env eventName body entityId eid fid now).entity st).log =
        st.log ++ [(create env eventName body entityId eid fid now).event]) :=
  ⟨rfl, rfl, rfl, rfl, rfl, rfl, fun _ _ => rfl⟩

/-- C9: `create` never reads the event store — its embedding takes no store
argument because the source performs no storage read — so with a
caller-supplied `entityId` the candidate state is
`reducer(emptyState, mapper(event))` computed from the new event alone, for
every prior store content; committing the handle appends the new event onto
the existing stream of that id. -/
theorem claim9_create_ignores_existing_stream (env : EventiveEnv τ β σ)
    (eventName : String) (body : β) (id eid fid : String) (now : τ)
    (n : Nat) (st : CommitState τ β σ) :
    (create env eventName body (some id) eid fid now).entity.state =
      env.reducer env.emptyState
        (env.mapper (create env eventName body (some id) eid fid now).event) ∧
    (create env eventName body (some id) eid fid now).event.entityId = id ∧
    (commitEvent env n (create env eventName body (some id) eid fid now).event
        (create env eventName body (some id) eid fid now).entity st).log =
      st.log ++ [(create env eventName body (some id) eid fid now).event] ∧
    eventsFor
        (commitEvent env n (create env eventName body (some id) eid fid now).event
          (create env eventName body (some id) eid fid now).entity st).log
        env.entityName id =
      eventsFor st.log env.entityName id ++
        [(create env eventName body (some id) eid fid now).event] := by
  refine ⟨rfl, rfl, rfl, ?_⟩
  simp [create, commitEvent, eventsFor, List.filter_append]

/-- C10: the commit closure is unguarded and not idempotent: invoking it
twice appends the identical event (same `eventId`) to the log twice and
passes every plugin hook (both `beforeCommit` and `onCommitted`) the mapped
event twice over. -/
theorem claim10_commit_not_idempotent (env : EventiveEnv τ β σ) (n : Nat)
    (ev : Event τ β) (ent : Entity τ σ) (st : CommitState τ β σ) :
    (commitEvent env n ev ent (commitEvent env n ev ent st)).log =
      st.log ++ [ev, ev] ∧
    ((commitEvent env n ev ent (commitEvent env n ev ent st)).log.drop
        st.log.length).map (fun e => e.eventId) = [ev.eventId, ev.eventId] ∧
    (commitEvent env n ev ent (commitEvent env n ev ent st)).beforeTrace =
      st.beforeTrace ++ hookCalls env n ev ++ hookCalls env n ev ∧
    (commitEvent env n ev ent (commitEvent env n ev ent st)).onTrace =
      st.onTrace ++ hookCalls env n ev ++ hookCalls env n ev := by
  refine ⟨by simp [commitEvent], ?_, by simp [commitEvent, List.append_assoc],
    by simp [commitEvent, List.append_assoc]⟩
  have hlog : (commitEvent env n ev ent (commitEvent env n ev ent st)).log =
      st.log ++ [ev, ev] := by simp [commitEvent]
  rw [hlog, List.drop_left]
  rfl

theorem sortByCreated_eq_nil_iff [LinearOrder τ] (l : List (Event τ β)) :
    sortByCreated l = [] ↔ l = [] := by
  constructor
  · intro h
    have hperm : l.Perm [] := by
      have := (sortByCreated_perm l).symm
      rwa [h] at this
    exact hperm.eq_nil
  · intro h
    rw [h]
    rfl

theorem findOne_of_empty [LinearOrder τ] (env : EventiveEnv τ β σ)
    (findEvents : String → String → List (Event τ β)) (entityId : String)
    (h : findEvents env.entityName entityId = []) :
    findOneByEntityId env findEvents entityId = none := by
  unfold findOneByEntityId
  rw [h]

theorem foldGroup_map_entityId (env : EventiveEnv τ β σ)
    (l : List (Event τ β)) (i : String)
    (h : ∀ e ∈ l, (e.entityId == i) = true) (hne : l ≠ []) :
    (foldGroup env l).map (fun ent => ent.entityId) = some i := by
  cases l with
  | nil => exact absurd rfl hne
  | cons first rest =>
      have hmem : (first :: rest).getLast (by simp) ∈ first :: rest :=
        List.getLast_mem (by simp)
      have hbeq := h _ hmem
      simp only [foldGroup, toEntity, Option.map_some]
      simpa [beq_iff_eq] using hbeq

theorem sorted_le_getLast [LinearOrder τ] :
    ∀ (first : Event τ β) (rest : List (Event τ β)),
      (first :: rest).Sorted createdLE →
      ∀ e ∈ first :: rest,
        e.eventCreatedAt ≤ ((first :: rest).getLast (by simp)).eventCreatedAt := by
  intro first rest
  induction rest generalizing first with
  | nil =>
      intro _ e he
      simp only [List.mem_singleton] at he
      subst he
      exact le_refl _
  | cons b m2 ih =>
      intro hsort e he
      rw [List.getLast_cons (by simp)]
      rcases List.mem_cons.mp he with rfl | hem
      · have hlast_mem : (b :: m2).getLast (by simp) ∈ b :: m2 :=
          List.getLast_mem (by simp)
        exact List.rel_of_sorted_cons hsort _ hlast_mem
      · exact ih b hsort.of_cons e hem

theorem runBeforeHooks_components (env : EventiveEnv τ β σ) (ev : Event τ β) :
    ∀ (aborts : List Bool) (i : Nat) (st : CommitState τ β σ),
      (runBeforeHooks env ev aborts i st).1.log = st.log ∧
      (runBeforeHooks env ev aborts i st).1.snapshots = st.snapshots ∧
      (runBeforeHooks env ev aborts i st).1.onTrace = st.onTrace := by
  intro aborts
  induction aborts with
  | nil => intro i st; exact ⟨rfl, rfl, rfl⟩
  | cons b rest ih =>
      intro i st
      cases b
      · simpa [runBeforeHooks] using
          ih (i + 1) { st with beforeTrace := st.beforeTrace ++ [(i, env.mapper ev)] }
      · exact ⟨rfl, rfl, rfl⟩

theorem runBeforeHooks_aborted (env : EventiveEnv τ β σ) (ev : Event τ β) :
    ∀ (aborts : List Bool) (i : Nat) (st : CommitState τ β σ), true ∈ aborts →
      (runBeforeHooks env ev aborts i st).2 = true := by
  intro aborts
  induction aborts with
  | nil => intro i st h; simp at h
  | cons b rest ih =>
      intro i st h
      cases b
      · have hrest : true ∈ rest := by simpa using h
        simpa [runBeforeHooks] using
          ih (i + 1) { st with beforeTrace := st.beforeTrace ++ [(i, env.mapper ev)] } hrest
      · rfl

theorem runCount_cons_true (rest : List Bool) : runCount (true :: rest) = 1 := by
  simp [runCount, List.takeWhile]

theorem runCount_cons_false (rest : List Bool) :
    runCount (false :: rest) = runCount rest + 1 := by
  by_cases h : true ∈ rest <;> simp [runCount, List.takeWhile, h]

theorem runBeforeHooks_beforeTrace (env : EventiveEnv τ β σ) (ev : Event τ β) :
    ∀ (aborts : List Bool) (i : Nat) (st : CommitState τ β σ),
      (runBeforeHooks env ev aborts i st).1.beforeTrace =
        st.beforeTrace ++ (List.range (runCount aborts)).map
          (fun j => (i + j, env.mapper ev)) := by
  intro aborts
  induction aborts with
  | nil => intro i st; simp [runBeforeHooks, runCount]
  | cons b rest ih =>
      intro i st
      cases b
      · rw [show runBeforeHooks env ev (false :: rest) i st =
            runBeforeHooks env ev rest (i + 1)
              { st with beforeTrace := st.beforeTrace ++ [(i, env.mapper ev)] } from rfl]
        rw [ih, runCount_cons_false, List.range_succ_eq_map]
        simp only [List.map_cons, List.map_map, List.append_assoc,
          List.cons_append, List.nil_append, Nat.add_zero]
        congr 1
        congr 1
        apply List.map_congr_left
        intro j _
        simp only [Function.comp]
        congr 1
        omega
      · rw [runCount_cons_true]
        have h1 : List.range 1 = [0] := rfl
        simp [runBeforeHooks, h1]

/-- C1: for every non-empty adapter-returned event stream of an aggregate,
`findOneByEntityId` returns an entity whose state is the left fold of the
reducer, seeded with the zero-value state, over the mapper-mapped events
taken in ascending `eventCreatedAt` order: the list folded over is a sorted
permutation of the stream, and (fold-of-composition form) the reducer only
ever receives events that went through the mapper — which is
`defaultMapper = id` when no mapper is configured. -/
theorem claim1_findOne_state_is_sorted_fold [LinearOrder τ]
    (env : EventiveEnv τ β σ) (findEvents : String → String → List (Event τ β))
    (entityId : String) (hne : findEvents env.entityName entityId ≠ []) :
    ∃ ent, findOneByEntityId env findEvents entityId = some ent ∧
      ent.state = ((sortByCreated (findEvents env.entityName entityId)).map
        env.mapper).foldl env.reducer env.emptyState ∧
      ent.state = (sortByCreated (findEvents env.entityName entityId)).foldl
        (fun s e => env.reducer s (env.mapper e)) env.emptyState ∧
      (sortByCreated (findEvents env.entityName entityId)).Perm
        (findEvents env.entityName entityId) ∧
      (sortByCreated (findEvents env.entityName entityId)).Sorted createdLE := by
  unfold findOneByEntityId
  cases h : findEvents env.entityName entityId with
  | nil => exact absurd h hne
  | cons first rest =>
      refine ⟨_, rfl, rfl, ?_, sortByCreated_perm _, sortByCreated_sorted _⟩
      simp [toEntity, List.foldl_map]

/-- C1 witness: the theorem applied to a concrete two-event stream returned
in descending order by the adapter. -/
theorem claim1_witness :
    ∃ ent, findOneByEntityId EventiveTest.envW EventiveTest.findDesc "a" = some ent ∧
      ent.state = ((sortByCreated (EventiveTest.findDesc
        EventiveTest.envW.entityName "a")).map
        EventiveTest.envW.mapper).foldl EventiveTest.envW.reducer
        EventiveTest.envW.emptyState ∧
      ent.state = (sortByCreated (EventiveTest.findDesc
        EventiveTest.envW.entityName "a")).foldl
        (fun s e => EventiveTest.envW.reducer s (EventiveTest.envW.mapper e))
        EventiveTest.envW.emptyState ∧
      (sortByCreated (EventiveTest.findDesc
        EventiveTest.envW.entityName "a")).Perm
        (EventiveTest.findDesc EventiveTest.envW.entityName "a") ∧
      (sortByCreated (EventiveTest.findDesc
        EventiveTest.envW.entityName "a")).Sorted createdLE :=
  claim1_findOne_state_is_sorted_fold EventiveTest.envW EventiveTest.findDesc "a"
    (by decide)

/-- C2: `findByEntityIds` walks the input ids in order, omitting every id
whose aggregate has no events (a `filterMap` over the input ids, so the
result order is exactly the input order with gaps closed, no null
placeholder and no error), and the entity produced for an id is the fold of
the ascending-sorted events of that aggregate alone; consequently the
returned entity ids are the input ids filtered to those holding events. -/
theorem claim2_findByEntityIds_order_and_omission [LinearOrder τ]
    (env : EventiveEnv τ β σ)
    (fE : String → List String → List (Event τ β)) (ids : List String) :
    findByEntityIds env fE ids =
      ids.filterMap (fun i =>
        foldGroup env (sortByCreated
          ((fE env.entityName ids).filter (fun e => e.entityId == i)))) ∧
    (findByEntityIds env fE ids).map (fun ent => ent.entityId) =
      ids.filter (fun i =>
        (fE env.entityName ids).any (fun e => e.entityId == i)) := by
  have hmain : findByEntityIds env fE ids =
      ids.filterMap (fun i => foldGroup env (sortByCreated
        ((fE env.entityName ids).filter (fun e => e.entityId == i)))) := by
    simp only [findByEntityIds]
    congr 1
    funext i
    rw [sortByCreated_filter]
  refine ⟨hmain, ?_⟩
  rw [hmain, List.map_filterMap]
  have hpt : ∀ i : String,
      (foldGroup env (sortByCreated ((fE env.entityName ids).filter
        (fun e => e.entityId == i)))).map (fun ent => ent.entityId) =
      if (fE env.entityName ids).any (fun e => e.entityId == i) then some i
      else none := by
    intro i
    by_cases hany : (fE env.entityName ids).any (fun e => e.entityId == i) = true
    · rw [if_pos hany]
      refine foldGroup_map_entityId env _ i ?_ ?_
      · intro e he
        have hmem : e ∈ (fE env.entityName ids).filter (fun e => e.entityId == i) :=
          (sortByCreated_perm _).mem_iff.mp he
        exact (List.mem_filter.mp hmem).2
      · intro hnil
        have hfnil : (fE env.entityName ids).filter (fun e => e.entityId == i) = [] :=
          (sortByCreated_eq_nil_iff _).mp hnil
        rcases List.any_eq_true.mp hany with ⟨x, hx, hpx⟩
        have hxf : x ∈ (fE env.entityName ids).filter (fun e => e.entityId == i) :=
          List.mem_filter.mpr ⟨hx, hpx⟩
        rw [hfnil] at hxf
        simp at hxf
    · rw [if_neg hany]
      have hfnil : (fE env.entityName ids).filter (fun e => e.entityId == i) = [] := by
        rw [List.filter_eq_nil_iff]
        intro a ha hpa
        exact hany (List.any_eq_true.mpr ⟨a, ha, hpa⟩)
      rw [hfnil]
      rfl
  rw [show (fun i => (foldGroup env (sortByCreated ((fE env.entityName ids).filter
      (fun e => e.entityId == i)))).map (fun ent => ent.entityId)) =
      (fun i => if (fE env.entityName ids).any (fun e => e.entityId == i) then some i
        else none) from funext hpt]
  exact filterMap_guard_eq_filter _ ids

/-- C4 counterexample: with the storage adapter returning the aggregate's
two events in descending timestamp order (timestamps 2 then 1),
`findOneByEntityId` returns an entity with `createdAt = 2` and
`updatedAt = 1`, while the minimum and maximum `eventCreatedAt` over the
aggregate's events are 1 and 2 — refuting, at this input, the claim that
`createdAt`/`updatedAt` equal the minimum/maximum regardless of the order
in which the adapter returns the events. -/
theorem claim4_counterexample :
    (findOneByEntityId EventiveTest.envW EventiveTest.findDesc "a").map
      (fun ent => ent.createdAt) = some 2 ∧
    (findOneByEntityId EventiveTest.envW EventiveTest.findDesc "a").map
      (fun ent => ent.updatedAt) = some 1 ∧
    ((EventiveTest.findDesc EventiveTest.envW.entityName "a").map
      (fun e => e.eventCreatedAt)).min? = some 1 ∧
    ((EventiveTest.findDesc EventiveTest.envW.entityName "a").map
      (fun e => e.eventCreatedAt)).max? = some 2 ∧
    (2 : Nat) ≠ 1 := by
  refine ⟨by decide, by decide, by decide, by decide, by decide⟩

/-- C4 amended: `createdAt` is the `eventCreatedAt` of the first event and
`updatedAt` that of the last event of the stream in the order the storage
adapter returned it (the source sorts only the fold, not these two
projections); when the adapter returns the stream already ascending by
`eventCreatedAt` — e.g. MongoDB natural/insertion order with chronological
appends — these are the minimum and maximum timestamps, as the claim says.
The same holds for the `useSnapshot` variant's `findOne`. -/
theorem claim4_amended_adapter_order [LinearOrder τ] (env : EventiveEnv τ β σ)
    (findEvents : String → String → List (Event τ β)) (entityId : String)
    (first : Event τ β) (rest : List (Event τ β))
    (h : findEvents env.entityName entityId = first :: rest) :
    ∃ ent, findOneByEntityId env findEvents entityId = some ent ∧
      ent.createdAt = first.eventCreatedAt ∧
      ent.updatedAt = ((first :: rest).getLast (by simp)).eventCreatedAt ∧
      ((first :: rest).Sorted createdLE →
        ∀ e ∈ first :: rest,
          ent.createdAt ≤ e.eventCreatedAt ∧
          e.eventCreatedAt ≤ ent.updatedAt) := by
  unfold findOneByEntityId
  rw [h]
  refine ⟨_, rfl, rfl, rfl, ?_⟩
  intro hsort e he
  constructor
  · show first.eventCreatedAt ≤ e.eventCreatedAt
    rcases List.mem_cons.mp he with rfl | hem
    · exact le_refl _
    · exact List.rel_of_sorted_cons hsort e hem
  · exact sorted_le_getLast first rest hsort e he

/-- C4 amended witness: the amended theorem applied to a concrete ascending
two-event stream. -/
theorem claim4_amended_witness :
    ∃ ent, findOneByEntityId EventiveTest.envW EventiveTest.findAsc "a" = some ent ∧
      ent.createdAt = (EventiveTest.mkEvent "e1" 1 "a" 10).eventCreatedAt ∧
      ent.updatedAt = ((EventiveTest.mkEvent "e1" 1 "a" 10 ::
        [EventiveTest.mkEvent "e2" 2 "a" 20]).getLast (by simp)).eventCreatedAt ∧
      ((EventiveTest.mkEvent "e1" 1 "a" 10 ::
          [EventiveTest.mkEvent "e2" 2 "a" 20]).Sorted createdLE →
        ∀ e ∈ EventiveTest.mkEvent "e1" 1 "a" 10 ::
            [EventiveTest.mkEvent "e2" 2 "a" 20],
          ent.createdAt ≤ e.eventCreatedAt ∧
          e.eventCreatedAt ≤ ent.updatedAt) :=
  claim4_amended_adapter_order EventiveTest.envW EventiveTest.findAsc "a"
    (EventiveTest.mkEvent "e1" 1 "a" 10) [EventiveTest.mkEvent "e2" 2 "a" 20] rfl

/-- C3 (spec-modelled: the abort-capable commit implementation is absent
from the sources; only its test and the spec describe it): when some
`beforeCommit` hook signals abort, the event is not appended, the snapshot
is not written, no `onCommitted` hook runs, the `beforeCommit` hooks that
ran are exactly those up to and including the first aborting one, the
pipeline returns normally (the embedded function is total, with no error
outcome) — all of this for every aborted commit, on any store; and, for a
brand-new aggregate id whose only event was aborted (final conjunct, with
the freshness condition scoped to it alone), a subsequent `findOne` still
returns null. -/
theorem claim3_abort_skips_persistence [LinearOrder τ] (env : EventiveEnv τ β σ)
    (aborts : List Bool) (useSnapshot : Bool) (event : Event τ β)
    (entity : Entity τ σ) (st : CommitState τ β σ)
    (habort : true ∈ aborts) :
    (commitEventWithAbort env aborts useSnapshot event entity st).log = st.log ∧
    (commitEventWithAbort env aborts useSnapshot event entity st).snapshots =
      st.snapshots ∧
    (commitEventWithAbort env aborts useSnapshot event entity st).onTrace =
      st.onTrace ∧
    (commitEventWithAbort env aborts useSnapshot event entity st).beforeTrace =
      st.beforeTrace ++
        (List.range ((aborts.takeWhile (fun b => !b)).length + 1)).map
          (fun j => (j, env.mapper event)) ∧
    (eventsFor st.log env.entityName event.entityId = [] →
      findOneByEntityId env
        (fun n i =>
          eventsFor (commitEventWithAbort env aborts useSnapshot event entity st).log n i)
        event.entityId = none) := by
  have hrun2 : (runBeforeHooks env event aborts 0 st).2 = true :=
    runBeforeHooks_aborted env event aborts 0 st habort
  have hred : commitEventWithAbort env aborts useSnapshot event entity st =
      (runBeforeHooks env event aborts 0 st).1 := by
    simp only [commitEventWithAbort]
    rw [hrun2]
    simp
  obtain ⟨hlog, hsnap, hon⟩ := runBeforeHooks_components env event aborts 0 st
  have hbt : (runBeforeHooks env event aborts 0 st).1.beforeTrace =
      st.beforeTrace ++ (List.range (runCount aborts)).map
        (fun j => (0 + j, env.mapper event)) :=
    runBeforeHooks_beforeTrace env event aborts 0 st
  have hcount : runCount aborts = (aborts.takeWhile (fun b => !b)).length + 1 := by
    unfold runCount
    rw [if_pos habort]
  refine ⟨by rw [hred]; exact hlog, by rw [hred]; exact hsnap,
    by rw [hred]; exact hon, ?_, ?_⟩
  · rw [hred, hbt, hcount]
    congr 1
    apply List.map_congr_left
    intro j _
    simp
  · intro hfresh
    apply findOne_of_empty
    show eventsFor (commitEventWithAbort env aborts useSnapshot event entity st).log
      env.entityName event.entityId = []
    rw [hred, hlog]
    exact hfresh

/-- C3 witness: the spec-modelled abort pipeline applied to a concrete
two-plugin configuration whose second hook aborts, on an empty store. -/
theorem claim3_witness :
    (commitEventWithAbort EventiveTest.envW [false, true] true
      (EventiveTest.mkEvent "e1" 1 "a" 10) EventiveTest.entW
      EventiveTest.stEmpty).log = EventiveTest.stEmpty.log ∧
    (commitEventWithAbort EventiveTest.envW [false, true] true
      (EventiveTest.mkEvent "e1" 1 "a" 10) EventiveTest.entW
      EventiveTest.stEmpty).snapshots = EventiveTest.stEmpty.snapshots ∧
    (commitEventWithAbort EventiveTest.envW [false, true] true
      (EventiveTest.mkEvent "e1" 1 "a" 10) EventiveTest.entW
      EventiveTest.stEmpty).onTrace = EventiveTest.stEmpty.onTrace ∧
    (commitEventWithAbort EventiveTest.envW [false, true] true
      (EventiveTest.mkEvent "e1" 1 "a" 10) EventiveTest.entW
      EventiveTest.stEmpty).beforeTrace =
      EventiveTest.stEmpty.beforeTrace ++
        (List.range ((([false, true] : List Bool).takeWhile (fun b => !b)).length + 1)).map
          (fun j => (j, EventiveTest.envW.mapper (EventiveTest.mkEvent "e1" 1 "a" 10))) ∧
    (eventsFor EventiveTest.stEmpty.log EventiveTest.envW.entityName
        (EventiveTest.mkEvent "e1" 1 "a" 10).entityId = [] →
      findOneByEntityId EventiveTest.envW
        (fun n i =>
          eventsFor (commitEventWithAbort EventiveTest.envW [false, true] true
            (EventiveTest.mkEvent "e1" 1 "a" 10) EventiveTest.entW
            EventiveTest.stEmpty).log n i)
        (EventiveTest.mkEvent "e1" 1 "a" 10).entityId = none) :=
  claim3_abort_skips_persistence EventiveTest.envW [false, true] true
    (EventiveTest.mkEvent "e1" 1 "a" 10) EventiveTest.entW EventiveTest.stEmpty
    (by decide)

/-- C8 (evidence for the code bug): faithful to the `useSnapshot` variant's
source, `querySnapshots` performs no check of the `useSnapshot` option at
all — with snapshotting disabled it still runs the snapshot query and the
batch read and resolves normally: with an empty snapshot collection it
returns the empty result, and with a leftover snapshot document it even
resolves that id into a folded entity. The repository's own test expects
this call to reject when `useSnapshot` is not set. -/
theorem claim8_querySnapshots_no_config_check :
    EventiveTest.oP4.useSnapshot = false ∧
    EventiveP4.querySnapshots EventiveTest.oP4 []
      [EventiveTest.mkEvent "e1" 1 "a" 10] = [] ∧
    EventiveP4.querySnapshots EventiveTest.oP4 [EventiveTest.snapA]
      [EventiveTest.mkEvent "e1" 1 "a" 10] =
      [{ entityId := "a", entityName := "E", createdAt := 1, updatedAt := 1,
         state := 10 }] := by
  refine ⟨rfl, by decide, by decide⟩

end Eventive
